import Mathlib

/-!
Verification of the wishlist-item positioning subsystem of the `wishlists`
service (sparse integer positions, midpoint insertion, fallback renumbering).

The persistence layer (`WishlistItems.find_last_position`,
`WishlistItems.find_all_by_wishlist_id`, `WishlistItems.deserialize` in
`service/models/wishlist_items.py`) and the HTTP handlers
(`WishlistItemCollection.post`, `WishlistItemResource.put` in
`service/routes.py`) are embedded directly from their source.  The mover
(`Wishlists.move_item`) and the renumber routine (`Wishlists.reposition`)
live in `service/models/wishlists.py`, which is not part of the sources at
hand; they are modelled from the specification (sections 4.2 and 8), with
the concrete expectations of `tests/test_models.py` pinning down the
renumber-then-retry order of the gap-exhaustion path.
-/

/-- A row of the `wishlist_items` table, restricted to the columns the
positioning subsystem reads and writes: the `product_id` half of the
composite key and the `position` column. -/
structure Item where
  product_id : Int
  position : Int
deriving DecidableEq

/-- Comparison of items by their `position` column, the sort key of
`WishlistItems.find_all_by_wishlist_id`. -/
def posLE (a b : Item) : Prop := a.position ≤ b.position

instance : DecidableRel posLE :=
  fun a b => inferInstanceAs (Decidable (a.position ≤ b.position))

instance : IsTotal Item posLE := ⟨fun a b => Int.le_total a.position b.position⟩

instance : IsTrans Item posLE := ⟨fun _ _ _ hab hbc => le_trans hab hbc⟩

/-- `ORDER BY position ASC` over a bag of rows. -/
def sortByPos (l : List Item) : List Item := l.insertionSort posLE

/-- The positions of a list of rows, in row order. -/
def positionsOf (l : List Item) : List Int := l.map (·.position)

/-- A wishlist as the positioning subsystem sees it: whether the wishlist
row exists, and its item rows (stored unordered; reads sort by position). -/
structure Wishlist where
  wexists : Bool
  items : List Item
deriving DecidableEq

/-- `WishlistItems.find_all_by_wishlist_id`: all items of the wishlist,
ordered by ascending position. -/
def listItems (w : Wishlist) : List Item := sortByPos w.items

/-- `WishlistItems.find_last_position`: the wishlist's items ordered by
descending position, first row's position; `0` when there are no items.
Equivalently the last row of the ascending order. -/
def find_last_position (items : List Item) : Int :=
  match (sortByPos items).getLast? with
  | some it => it.position
  | none => 0

/-- The position the allocator hands to a newly appended item
(`service/routes.py`, `WishlistItemCollection.post`):
`find_last_position + 1000`. -/
def appendPosition (w : Wishlist) : Int := find_last_position w.items + 1000

/-- The state change performed by `WishlistItemCollection.post` when it
creates an item: a new row with the allocated append position. -/
def create_item (w : Wishlist) (pid : Int) : Wishlist :=
  { w with items := w.items ++ [⟨pid, find_last_position w.items + 1000⟩] }

/-- Modelled from the spec: the candidate predecessor of the insertion
slot, "the item with the greatest position strictly less than
`before_position` among items other than the one being moved", with `0`
standing in when no such item exists (the front-insertion halving rule
`floor(smallest/2)` is the midpoint between this sentinel and the
successor).  `others` is expected sorted ascending. -/
def predPos (others : List Item) (before : Int) : Int :=
  match (others.filter (fun it => it.position < before)).getLast? with
  | some it => it.position
  | none => 0

/-- Modelled from the spec: the candidate successor, "the item with the
smallest position greater than or equal to `before_position` among items
other than the one being moved".  `others` is expected sorted ascending. -/
def succItem? (others : List Item) (before : Int) : Option Item :=
  others.find? (fun it => before ≤ it.position)

/-- The largest position among `others` (expected sorted ascending,
nonempty); `0` for the empty list. -/
def lastPosOf (others : List Item) : Int :=
  match others.getLast? with
  | some it => it.position
  | none => 0

/-- Modelled from the spec (`Wishlists.move_item` is not among the sources):
the position computed for the moved item.  When `before_position` exceeds
every other position the item moves to the end at `largest + 1000`;
otherwise it receives the floor midpoint of predecessor and successor. -/
def rawNewPos (others : List Item) (before : Int) : Int :=
  match succItem? others before with
  | none => lastPosOf others + 1000
  | some s => Int.fdiv (predPos others before + s.position) 2

/-- Modelled from the spec: the renumbering trigger — the computed midpoint
equals the predecessor's or the successor's position (integer division
exhausted the gap).  End insertion never triggers it. -/
def moveConflict (others : List Item) (before : Int) : Bool :=
  match succItem? others before with
  | none => false
  | some s =>
    let m := Int.fdiv (predPos others before + s.position) 2
    m == predPos others before || m == s.position

/-- Modelled from the spec: reassign consecutive positions
`(k + index + 1) * 1000` along a list of rows. -/
def renumberFrom (k : Nat) : List Item → List Item
  | [] => []
  | it :: l => { it with position := ((k : Int) + 1) * 1000 } :: renumberFrom (k + 1) l

/-- Modelled from the spec: the full renumber — every item's position
becomes `(ordinal_index + 1) * 1000`, `ordinal_index` being the zero-based
rank in ascending-position order. -/
def renumberList (l : List Item) : List Item := renumberFrom 0 l

/-- The `DataValidationError` situations of the positioning operations. -/
inductive WLError where
  | notFound
  | invalidState
deriving DecidableEq

/-- Modelled from the spec (`Wishlists.reposition` is not among the
sources): fail when the wishlist does not exist, otherwise renumber all its
items to consecutive multiples of 1000 in ascending-position order. -/
def reposition (w : Wishlist) : Except WLError Wishlist :=
  if w.wexists then
    .ok { w with items := renumberList (sortByPos w.items) }
  else
    .error .notFound

/-- Modelled from the spec (`Wishlists.move_item` is not among the
sources): load the items sorted ascending; fail when there are none; fail
when the target product is absent; with a single item return it unchanged;
otherwise compute the new position among the remaining items — and when the
midpoint collides with predecessor or successor, first renumber the whole
wishlist in its current order and recompute against the now-spaced values
(the order `tests/test_models.py::test_move_wishlist_item_reposition`
observes: positions `[1, 2, 3]` become `[500, 1000, 2000]` with the moved
item at `500`). -/
def move_item (w : Wishlist) (pid before : Int) : Except WLError (Item × Wishlist) :=
  let items := sortByPos w.items
  if items.isEmpty then .error .invalidState
  else
    match items.find? (fun it => it.product_id == pid) with
    | none => .error .notFound
    | some target =>
      if items.length == 1 then .ok (target, w)
      else
        let base :=
          if moveConflict (items.filter (fun it => it.product_id != pid)) before then
            renumberList items
          else items
        let others := base.filter (fun it => it.product_id != pid)
        let target' : Item := { target with position := rawNewPos others before }
        .ok (target', { w with items := others ++ [target'] })

/-- Errors surfaced by an operation run against the store: a validation
failure raised before any mutation, or the storage error a failing commit
propagates unchanged. -/
inductive TxError where
  | validation (e : WLError)
  | storage (msg : String)
deriving DecidableEq

/-- Modelled from the spec: `move_item` as one unit of work.  The second
component is the stored state after the call: a validation failure or a
failing commit (`commitResult = some msg`) leaves it exactly at `w`; only a
successful commit installs the new rows. -/
def move_item_tx (commitResult : Option String) (w : Wishlist) (pid before : Int) :
    Except TxError (Item × Wishlist) × Wishlist :=
  match move_item w pid before with
  | .error e => (.error (.validation e), w)
  | .ok (it, w') =>
    match commitResult with
    | none => (.ok (it, w'), w')
    | some msg => (.error (.storage msg), w)

/-- Modelled from the spec: `reposition` as one unit of work, with the
stored state after the call as second component. -/
def reposition_tx (commitResult : Option String) (w : Wishlist) :
    Except TxError Wishlist × Wishlist :=
  match reposition w with
  | .error e => (.error (.validation e), w)
  | .ok w' =>
    match commitResult with
    | none => (.ok w', w')
    | some msg => (.error (.storage msg), w)

/-- A `WishlistItems` object's attributes as `deserialize` sees them:
each column either set or `None`. -/
structure ItemRecord where
  wishlist_id : Option Int
  product_id : Option Int
  description : Option String
  position : Option Int
deriving DecidableEq

/-- A request body for the item endpoints.  `product_id = none` stands for
a missing key or a non-integer value (both rejected); `position = none`
stands for an absent `position` key. -/
structure Payload where
  wishlist_id : Option Int
  product_id : Option Int
  description : Option String
  position : Option Int
deriving DecidableEq

/-- `DataValidationError` raised by `WishlistItems.deserialize`. -/
inductive DVError where
  | badProductId
deriving DecidableEq

/-- `WishlistItems.deserialize` (`service/models/wishlist_items.py`):
reject a missing or non-integer `product_id`; copy `wishlist_id`,
`product_id` and `description` from the payload; and only when the object's
own `position` is `None`, set it from the payload, defaulting to `0`. -/
def deserialize (self : ItemRecord) (data : Payload) : Except DVError ItemRecord :=
  match data.product_id with
  | none => .error .badProductId
  | some pid =>
    .ok { wishlist_id := data.wishlist_id
          product_id := some pid
          description := data.description
          position :=
            match self.position with
            | some p => some p
            | none => some (data.position.getD 0) }

/-- The mutation step of `WishlistItemResource.put` (`service/routes.py`):
`position` is popped from the payload, the stored item is deserialized over
it, and the path ids are reimposed. -/
def put_route_update (stored : ItemRecord) (wishlist_id product_id : Int) (data : Payload) :
    Except DVError ItemRecord :=
  let cleaned : Payload := { data with position := none }
  match deserialize stored cleaned with
  | .error e => .error e
  | .ok it => .ok { it with wishlist_id := some wishlist_id, product_id := some product_id }

/-- Failures of `WishlistItemCollection.post`. -/
inductive PostError where
  | wishlistNotFound
  | badRequest
  | duplicateProduct
deriving DecidableEq

/-- `WishlistItemCollection.post` (`service/routes.py`): look up the
wishlist, deserialize the payload into a fresh item (whose `position`
starts as `None`), reject a duplicate product, then overwrite the position
with `find_last_position + 1000` and create the row. -/
def post_route (w : Wishlist) (data : Payload) : Except PostError (Item × Wishlist) :=
  if w.wexists then
    match deserialize ⟨none, none, none, none⟩ data with
    | .error _ => .error .badRequest
    | .ok rec0 =>
      match rec0.product_id with
      | none => .error .badRequest
      | some pid =>
        if w.items.any (fun it => it.product_id == pid) then .error .duplicateProduct
        else .ok (⟨pid, find_last_position w.items + 1000⟩, create_item w pid)
  else .error .wishlistNotFound

deriving instance DecidableEq for Except

/-- The post-operation well-formedness the spec's invariants section
describes: positions pairwise distinct, and the listing order strictly
ascending in position. -/
def StrictlyListed (w : Wishlist) : Prop :=
  (positionsOf w.items).Nodup ∧
    (listItems w).Pairwise (fun a b => a.position < b.position)

instance (w : Wishlist) : Decidable (StrictlyListed w) :=
  inferInstanceAs (Decidable (_ ∧ _))

lemma sortByPos_sorted (l : List Item) : List.Sorted posLE (sortByPos l) :=
  List.sorted_insertionSort posLE l

lemma sortByPos_perm (l : List Item) : List.Perm (sortByPos l) l :=
  List.perm_insertionSort posLE l

lemma sortByPos_eq_of_sorted {l : List Item} (h : List.Sorted posLE l) :
    sortByPos l = l :=
  h.insertionSort_eq

lemma sorted_getLast_max {l : List Item} {m : Item}
    (hs : List.Sorted posLE l) (hl : l.getLast? = some m) :
    ∀ x ∈ l, x.position ≤ m.position := by
  induction l with
  | nil => simp at hl
  | cons a t ih =>
    intro x hx
    cases t with
    | nil =>
      simp only [List.getLast?_singleton, Option.some.injEq] at hl
      simp only [List.mem_singleton] at hx
      subst hl hx
      exact le_refl _
    | cons b t' =>
      rw [List.getLast?_cons_cons] at hl
      rcases List.mem_cons.mp hx with rfl | hx'
      · have hm : m ∈ b :: t' := List.mem_of_getLast?_eq_some hl
        exact (List.sorted_cons.mp hs).1 m hm
      · exact ih (List.sorted_cons.mp hs).2 hl x hx'

lemma sorted_find_min {l : List Item} {s : Item} {before : Int}
    (hs : List.Sorted posLE l)
    (hf : l.find? (fun it => before ≤ it.position) = some s) :
    s ∈ l ∧ before ≤ s.position ∧
      ∀ q ∈ l, s.position ≤ q.position ∨ q.position < before := by
  induction l with
  | nil => simp at hf
  | cons a t ih =>
    by_cases ha : before ≤ a.position
    · rw [List.find?_cons_of_pos _ (by simpa using ha)] at hf
      injection hf with hf
      subst hf
      refine ⟨List.mem_cons_self _ _, ha, ?_⟩
      intro q hq
      rcases List.mem_cons.mp hq with rfl | hq'
      · exact Or.inl (le_refl _)
      · exact Or.inl ((List.sorted_cons.mp hs).1 q hq')
    · rw [List.find?_cons_of_neg _ (by simpa using ha)] at hf
      obtain ⟨h1, h2, h3⟩ := ih (List.sorted_cons.mp hs).2 hf
      refine ⟨List.mem_cons_of_mem _ h1, h2, ?_⟩
      intro q hq
      rcases List.mem_cons.mp hq with rfl | hq'
      · exact Or.inr (by omega)
      · exact h3 q hq'


lemma predPos_eq_of_getLast_some {others : List Item} {before : Int} {m : Item}
    (hg : (others.filter (fun it => it.position < before)).getLast? = some m) :
    predPos others before = m.position := by
  unfold predPos
  rw [hg]

lemma predPos_eq_of_getLast_none {others : List Item} {before : Int}
    (hg : (others.filter (fun it => it.position < before)).getLast? = none) :
    predPos others before = 0 := by
  unfold predPos
  rw [hg]

lemma lastPosOf_eq_of_getLast_some {others : List Item} {m : Item}
    (hg : others.getLast? = some m) : lastPosOf others = m.position := by
  unfold lastPosOf
  rw [hg]

lemma rawNewPos_of_succ_none {others : List Item} {before : Int}
    (h : succItem? others before = none) :
    rawNewPos others before = lastPosOf others + 1000 := by
  unfold rawNewPos
  rw [h]

lemma rawNewPos_of_succ_some {others : List Item} {before : Int} {s : Item}
    (h : succItem? others before = some s) :
    rawNewPos others before = Int.fdiv (predPos others before + s.position) 2 := by
  unfold rawNewPos
  rw [h]

lemma moveConflict_of_succ_none {others : List Item} {before : Int}
    (h : succItem? others before = none) : moveConflict others before = false := by
  unfold moveConflict
  rw [h]

lemma moveConflict_of_succ_some {others : List Item} {before : Int} {s : Item}
    (h : succItem? others before = some s) :
    moveConflict others before =
      (Int.fdiv (predPos others before + s.position) 2 == predPos others before ||
        Int.fdiv (predPos others before + s.position) 2 == s.position) := by
  unfold moveConflict
  rw [h]

lemma predPos_ub {others : List Item} {before : Int}
    (hs : List.Sorted posLE others) :
    ∀ q ∈ others, q.position < before → q.position ≤ predPos others before := by
  intro q hq hlt
  have hqf : q ∈ others.filter (fun it => it.position < before) :=
    List.mem_filter.mpr ⟨hq, by simpa using hlt⟩
  cases hg : (others.filter (fun it => it.position < before)).getLast? with
  | none =>
    rw [List.getLast?_eq_none_iff] at hg
    rw [hg] at hqf
    simp at hqf
  | some m =>
    rw [predPos_eq_of_getLast_some hg]
    exact sorted_getLast_max (hs.sublist (List.filter_sublist others)) hg q hqf

lemma predPos_mem {others : List Item} {before : Int}
    (hp : ∃ q ∈ others, q.position < before) :
    predPos others before ∈ positionsOf others ∧ predPos others before < before := by
  obtain ⟨q, hq, hlt⟩ := hp
  have hqf : q ∈ others.filter (fun it => it.position < before) :=
    List.mem_filter.mpr ⟨hq, by simpa using hlt⟩
  cases hg : (others.filter (fun it => it.position < before)).getLast? with
  | none =>
    rw [List.getLast?_eq_none_iff] at hg
    rw [hg] at hqf
    simp at hqf
  | some m =>
    have hm := List.mem_filter.mp (List.mem_of_getLast?_eq_some hg)
    rw [predPos_eq_of_getLast_some hg]
    refine ⟨List.mem_map_of_mem (·.position) hm.1, ?_⟩
    simpa using hm.2

lemma predPos_nonneg {others : List Item} {before : Int}
    (hnn : ∀ q ∈ others, 0 ≤ q.position) :
    0 ≤ predPos others before := by
  cases hg : (others.filter (fun it => it.position < before)).getLast? with
  | none => rw [predPos_eq_of_getLast_none hg]
  | some m =>
    rw [predPos_eq_of_getLast_some hg]
    exact hnn m (List.mem_filter.mp (List.mem_of_getLast?_eq_some hg)).1

lemma predPos_le_succ {others : List Item} {before : Int} {s : Item}
    (hs : List.Sorted posLE others)
    (hnn : ∀ q ∈ others, 0 ≤ q.position)
    (hfind : succItem? others before = some s) :
    predPos others before ≤ s.position := by
  have hsm := sorted_find_min hs hfind
  cases hg : (others.filter (fun it => it.position < before)).getLast? with
  | none =>
    rw [predPos_eq_of_getLast_none hg]
    exact hnn s hsm.1
  | some m =>
    have hm := List.mem_filter.mp (List.mem_of_getLast?_eq_some hg)
    have hmlt : m.position < before := by simpa using hm.2
    have hb := hsm.2.1
    rw [predPos_eq_of_getLast_some hg]
    omega

lemma rawNewPos_not_mem {others : List Item} {before : Int}
    (hs : List.Sorted posLE others) (hne : others ≠ [])
    (hnn : ∀ q ∈ others, 0 ≤ q.position)
    (hc : moveConflict others before = false) :
    ∀ q ∈ others, q.position ≠ rawNewPos others before := by
  intro q hq
  cases hfind : succItem? others before with
  | none =>
    rw [rawNewPos_of_succ_none hfind]
    cases hg : others.getLast? with
    | none => exact absurd (List.getLast?_eq_none_iff.mp hg) hne
    | some m =>
      have hle := sorted_getLast_max hs hg q hq
      rw [lastPosOf_eq_of_getLast_some hg]
      omega
  | some s =>
    have hsm := sorted_find_min hs hfind
    rw [moveConflict_of_succ_some hfind] at hc
    simp only [Bool.or_eq_false_iff, beq_eq_false_iff_ne] at hc
    have hps := predPos_le_succ hs hnn hfind
    rw [rawNewPos_of_succ_some hfind]
    rw [Int.fdiv_eq_ediv _ (by omega)] at hc ⊢
    have hub := @predPos_ub others before hs q hq
    rcases hsm.2.2 q hq with hge | hlt
    · omega
    · have := hub hlt
      omega

lemma moveConflict_renumbered {others : List Item} {before : Int}
    (hs : List.Sorted posLE others)
    (hmult : ∀ it ∈ others, ∃ m : Int, 1 ≤ m ∧ it.position = m * 1000) :
    moveConflict others before = false := by
  cases hfind : succItem? others before with
  | none => exact moveConflict_of_succ_none hfind
  | some s =>
    have hsm := sorted_find_min hs hfind
    obtain ⟨ms, hms1, hms2⟩ := hmult s hsm.1
    have hgap : predPos others before + 1000 ≤ s.position := by
      cases hg : (others.filter (fun it => it.position < before)).getLast? with
      | none =>
        rw [predPos_eq_of_getLast_none hg]
        omega
      | some m =>
        have hm := List.mem_filter.mp (List.mem_of_getLast?_eq_some hg)
        obtain ⟨mm, hmm1, hmm2⟩ := hmult m hm.1
        have hmlt : m.position < before := by simpa using hm.2
        have hb := hsm.2.1
        rw [predPos_eq_of_getLast_some hg]
        have hlt : mm < ms := by nlinarith
        omega
    rw [moveConflict_of_succ_some hfind]
    simp only [Bool.or_eq_false_iff, beq_eq_false_iff_ne]
    rw [Int.fdiv_eq_ediv _ (by omega)]
    omega

lemma renumberFrom_pid (k : Nat) (l : List Item) :
    (renumberFrom k l).map (·.product_id) = l.map (·.product_id) := by
  induction l generalizing k with
  | nil => rfl
  | cons a l ih => simp [renumberFrom, ih]

lemma renumberFrom_length (k : Nat) (l : List Item) :
    (renumberFrom k l).length = l.length := by
  induction l generalizing k with
  | nil => rfl
  | cons a l ih => simp [renumberFrom, ih]

lemma renumberFrom_lb (k : Nat) (l : List Item) :
    ∀ it ∈ renumberFrom k l, ((k : Int) + 1) * 1000 ≤ it.position := by
  induction l generalizing k with
  | nil => simp [renumberFrom]
  | cons a l ih =>
    intro it hit
    simp only [renumberFrom] at hit
    rcases List.mem_cons.mp hit with rfl | h
    · exact le_refl _
    · have := ih (k + 1) it h
      push_cast at this ⊢
      omega

lemma renumberFrom_mult (k : Nat) (l : List Item) :
    ∀ it ∈ renumberFrom k l, ∃ m : Int, 1 ≤ m ∧ it.position = m * 1000 := by
  induction l generalizing k with
  | nil => simp [renumberFrom]
  | cons a l ih =>
    intro it hit
    simp only [renumberFrom] at hit
    rcases List.mem_cons.mp hit with rfl | h
    · exact ⟨(k : Int) + 1, by omega, rfl⟩
    · exact ih (k + 1) it h

lemma renumberFrom_strict (k : Nat) (l : List Item) :
    (renumberFrom k l).Pairwise (fun a b => a.position < b.position) := by
  induction l generalizing k with
  | nil => simp [renumberFrom]
  | cons a l ih =>
    simp only [renumberFrom]
    refine List.pairwise_cons.mpr ⟨?_, ih (k + 1)⟩
    intro b hb
    have := renumberFrom_lb (k + 1) l b hb
    push_cast at this ⊢
    omega

lemma renumberFrom_positions (k : Nat) (l : List Item) :
    positionsOf (renumberFrom k l) =
      (List.range l.length).map (fun i : Nat => ((k : Int) + (i : Int) + 1) * 1000) := by
  induction l generalizing k with
  | nil => rfl
  | cons a l ih =>
    show ((k : Int) + 1) * 1000 :: positionsOf (renumberFrom (k + 1) l) = _
    rw [List.length_cons, List.range_succ_eq_map, List.map_cons, List.map_map, ih (k + 1)]
    refine congrArg₂ _ (by push_cast; ring) ?_
    refine List.map_congr_left ?_
    intro i _
    simp only [Function.comp_apply]
    push_cast
    ring

lemma pairwise_lt_of_sorted_nodup {l : List Item}
    (hs : List.Sorted posLE l) (h : (positionsOf l).Nodup) :
    l.Pairwise (fun a b => a.position < b.position) := by
  have hne : l.Pairwise (fun a b => a.position ≠ b.position) :=
    (List.pairwise_map).mp h
  exact (hs.and hne).imp (fun hab => lt_of_le_of_ne hab.1 hab.2)

lemma nodup_positions_of_strict {l : List Item}
    (h : l.Pairwise (fun a b => a.position < b.position)) :
    (positionsOf l).Nodup := by
  refine (List.pairwise_map).mpr ?_
  exact h.imp (fun hab => ne_of_lt hab)

lemma positions_perm (l : List Item) :
    List.Perm (positionsOf (sortByPos l)) (positionsOf l) := by
  unfold positionsOf
  exact (sortByPos_perm l).map (·.position)

lemma listItems_strict {w : Wishlist} (h : (positionsOf w.items).Nodup) :
    (listItems w).Pairwise (fun a b => a.position < b.position) := by
  have hnd : (positionsOf (sortByPos w.items)).Nodup :=
    (positions_perm w.items).nodup_iff.mpr h
  exact pairwise_lt_of_sorted_nodup (sortByPos_sorted _) hnd

lemma find_last_position_max (items : List Item) :
    ∀ q ∈ items, q.position ≤ find_last_position items := by
  intro q hq
  have hq' : q ∈ sortByPos items := ((sortByPos_perm items).mem_iff).mpr hq
  cases hg : (sortByPos items).getLast? with
  | none =>
    rw [List.getLast?_eq_none_iff] at hg
    rw [hg] at hq'
    simp at hq'
  | some m =>
    have : find_last_position items = m.position := by
      unfold find_last_position
      rw [hg]
    rw [this]
    exact sorted_getLast_max (sortByPos_sorted items) hg q hq'

lemma find_last_position_mem {items : List Item} (hne : items ≠ []) :
    find_last_position items ∈ positionsOf items := by
  cases hg : (sortByPos items).getLast? with
  | none =>
    rw [List.getLast?_eq_none_iff] at hg
    have hlen := (sortByPos_perm items).length_eq
    rw [hg] at hlen
    exact absurd (List.length_eq_zero.mp (by simpa using hlen.symm)) hne
  | some m =>
    have he : find_last_position items = m.position := by
      unfold find_last_position
      rw [hg]
    have hm : m ∈ items :=
      ((sortByPos_perm items).mem_iff).mp (List.mem_of_getLast?_eq_some hg)
    rw [he]
    exact List.mem_map_of_mem (·.position) hm

lemma filter_pid_ne_nil {l : List Item} {pid : Int}
    (hn : (l.map (·.product_id)).Nodup) (hl : 2 ≤ l.length) :
    l.filter (fun it => it.product_id != pid) ≠ [] := by
  intro hnil
  have hall : ∀ it ∈ l, it.product_id = pid := by
    intro it hit
    have := List.filter_eq_nil_iff.mp hnil it hit
    simpa using this
  match l, hn, hl, hall with
  | a :: b :: t, hn, _, hall =>
    have ha := hall a (by simp)
    have hb := hall b (by simp)
    simp only [List.map_cons, List.nodup_cons, List.mem_cons, List.mem_map] at hn
    exact hn.1 (Or.inl (by rw [ha, hb]))

lemma isEmpty_false_of_find {l : List Item} {p : Item → Bool} {target : Item}
    (hfind : l.find? p = some target) : l.isEmpty = false := by
  have hmem := List.mem_of_find?_eq_some hfind
  cases l with
  | nil => simp at hmem
  | cons a t => rfl

lemma move_item_single {w : Wishlist} {pid : Int} {target : Item}
    (hfind : (sortByPos w.items).find? (fun it => it.product_id == pid) = some target)
    (hlen : (sortByPos w.items).length = 1) (before : Int) :
    move_item w pid before = .ok (target, w) := by
  have hne := isEmpty_false_of_find hfind
  simp only [move_item, hne, Bool.false_eq_true, if_false, hfind, hlen]
  simp

lemma move_item_multi {w : Wishlist} {pid before : Int} {target : Item}
    (hfind : (sortByPos w.items).find? (fun it => it.product_id == pid) = some target)
    (hlen : (sortByPos w.items).length ≠ 1) :
    move_item w pid before =
      (let items := sortByPos w.items
       let base :=
         if moveConflict (items.filter (fun it => it.product_id != pid)) before then
           renumberList items
         else items
       let others := base.filter (fun it => it.product_id != pid)
       let target' : Item := { target with position := rawNewPos others before }
       Except.ok (target', { w with items := others ++ [target'] })) := by
  have hne := isEmpty_false_of_find hfind
  have hlen' : ((sortByPos w.items).length == 1) = false := by
    simpa using hlen
  simp only [move_item, hne, Bool.false_eq_true, if_false, hfind, hlen']

lemma strict_after_insert {base : List Item} {pid before : Int} (t : Item)
    (hsort : List.Sorted posLE base)
    (hnodup : (positionsOf base).Nodup)
    (hnnb : ∀ q ∈ base, 0 ≤ q.position)
    (hpidb : (base.map (·.product_id)).Nodup)
    (hlenb : 2 ≤ base.length)
    (hconf : moveConflict (base.filter (fun x => x.product_id != pid)) before = false) :
    (positionsOf (base.filter (fun x => x.product_id != pid) ++
      [{ t with position :=
          rawNewPos (base.filter (fun x => x.product_id != pid)) before }])).Nodup := by
  have hso : List.Sorted posLE (base.filter (fun x => x.product_id != pid)) :=
    hsort.sublist (List.filter_sublist base)
  have hnodupo : (positionsOf (base.filter (fun x => x.product_id != pid))).Nodup := by
    unfold positionsOf at hnodup ⊢
    exact hnodup.sublist ((List.filter_sublist base).map (·.position))
  have hnno : ∀ q ∈ base.filter (fun x => x.product_id != pid), 0 ≤ q.position :=
    fun q hq => hnnb q (List.mem_of_mem_filter hq)
  have hneo : base.filter (fun x => x.product_id != pid) ≠ [] :=
    filter_pid_ne_nil hpidb hlenb
  have hfresh := rawNewPos_not_mem hso hneo hnno hconf
  unfold positionsOf
  rw [List.map_append]
  refine List.Nodup.append hnodupo (List.nodup_singleton _) ?_
  intro x hx hx2
  simp only [List.map_cons, List.map_nil, List.mem_singleton] at hx2
  obtain ⟨q, hq, hqx⟩ := List.mem_map.mp hx
  exact hfresh q hq (by rw [hqx, hx2])

lemma move_item_ok_strict {w : Wishlist} {pid before : Int} {it : Item} {w' : Wishlist}
    (hpos : (positionsOf w.items).Nodup)
    (hnn : ∀ q ∈ w.items, 0 ≤ q.position)
    (hpid : (w.items.map (·.product_id)).Nodup)
    (h : move_item w pid before = .ok (it, w')) :
    StrictlyListed w' := by
  cases hfind : (sortByPos w.items).find? (fun x => x.product_id == pid) with
  | none =>
    exfalso
    by_cases hemp : (sortByPos w.items).isEmpty
    · simp only [move_item, hemp, if_true] at h
      exact Except.noConfusion h
    · have hemp' : (sortByPos w.items).isEmpty = false := by simpa using hemp
      simp only [move_item, hemp', Bool.false_eq_true, if_false, hfind] at h
      exact Except.noConfusion h
  | some target =>
    have hposs : (positionsOf (sortByPos w.items)).Nodup :=
      (positions_perm w.items).nodup_iff.mpr hpos
    have hnns : ∀ q ∈ sortByPos w.items, 0 ≤ q.position :=
      fun q hq => hnn q ((sortByPos_perm w.items).mem_iff.mp hq)
    have hpids : ((sortByPos w.items).map (·.product_id)).Nodup :=
      ((sortByPos_perm w.items).map (·.product_id)).nodup_iff.mpr hpid
    by_cases hlen : (sortByPos w.items).length = 1
    · rw [move_item_single hfind hlen before] at h
      injection h with h
      injection h with h1 h2
      subst h2
      exact ⟨hpos, listItems_strict hpos⟩
    · have hnil : sortByPos w.items ≠ [] := by
        intro hh
        rw [hh] at hfind
        simp at hfind
      have hlen2 : 2 ≤ (sortByPos w.items).length := by
        have := List.length_pos.mpr hnil
        omega
      rw [move_item_multi hfind hlen] at h
      simp only [] at h
      by_cases hc :
          moveConflict ((sortByPos w.items).filter (fun x => x.product_id != pid)) before
      · rw [if_pos hc] at h
        injection h with h
        injection h with h1 h2
        subst h2
        have hstrictB := renumberFrom_strict 0 (sortByPos w.items)
        have hsortB : List.Sorted posLE (renumberList (sortByPos w.items)) :=
          hstrictB.imp (fun hab => le_of_lt hab)
        have hnodupB : (positionsOf (renumberList (sortByPos w.items))).Nodup :=
          nodup_positions_of_strict hstrictB
        have hnnB : ∀ q ∈ renumberList (sortByPos w.items), 0 ≤ q.position := by
          intro q hq
          have := renumberFrom_lb 0 (sortByPos w.items) q hq
          omega
        have hpidB : ((renumberList (sortByPos w.items)).map (·.product_id)).Nodup := by
          unfold renumberList
          rw [renumberFrom_pid]
          exact hpids
        have hlenB : 2 ≤ (renumberList (sortByPos w.items)).length := by
          unfold renumberList
          rw [renumberFrom_length]
          exact hlen2
        have hconfB :
            moveConflict ((renumberList (sortByPos w.items)).filter
              (fun x => x.product_id != pid)) before = false := by
          apply moveConflict_renumbered (hsortB.sublist (List.filter_sublist _))
          intro q hq
          exact renumberFrom_mult 0 (sortByPos w.items) q (List.mem_of_mem_filter hq)
        have hnd := strict_after_insert target hsortB hnodupB hnnB hpidB hlenB hconfB
        exact ⟨hnd, listItems_strict hnd⟩
      · have hc' :
            moveConflict ((sortByPos w.items).filter (fun x => x.product_id != pid))
              before = false := by simpa using hc
        rw [if_neg hc] at h
        injection h with h
        injection h with h1 h2
        subst h2
        have hnd := strict_after_insert target (sortByPos_sorted w.items) hposs hnns
          hpids hlen2 hc'
        exact ⟨hnd, listItems_strict hnd⟩

/-- Claim C1: starting from a wishlist whose three items have positions
[1, 2, 3], move-item on the item at position 3 with before_position 1
triggers the renumbering path and leaves stored positions [500, 1000, 2000]
in the new relative order, with the moved item's returned final position
equal to 500. -/
theorem C1_gap_exhaustion_move :
    ∃ w' : Wishlist,
      moveConflict ((sortByPos [⟨1, 1⟩, ⟨2, 2⟩, ⟨3, 3⟩]).filter
        (fun x => x.product_id != 3)) 1 = true ∧
      move_item ⟨true, [⟨1, 1⟩, ⟨2, 2⟩, ⟨3, 3⟩]⟩ 3 1 = .ok (⟨3, 500⟩, w') ∧
      positionsOf (listItems w') = [500, 1000, 2000] ∧
      (listItems w').map (·.product_id) = [3, 1, 2] :=
  ⟨⟨true, [⟨1, 1000⟩, ⟨2, 2000⟩, ⟨3, 500⟩]⟩, by decide, by decide, by decide, by decide⟩

/-- Claim C2, counterexample: in the [1, 2, 3] gap-exhaustion scenario the
renumbering path fires, yet the moved item's final position is 500 — it is
not a multiple of 1000 and is not read back from the freshly renumbered
sequence (whose positions are [1000, 2000, 3000]). -/
theorem C2_counterexample_position_not_read_back :
    ∃ it : Item, ∃ w' : Wishlist,
      moveConflict ((sortByPos [⟨1, 1⟩, ⟨2, 2⟩, ⟨3, 3⟩]).filter
        (fun x => x.product_id != 3)) 1 = true ∧
      move_item ⟨true, [⟨1, 1⟩, ⟨2, 2⟩, ⟨3, 3⟩]⟩ 3 1 = .ok (it, w') ∧
      it.position = 500 ∧
      it.position % 1000 ≠ 0 ∧
      it.position ∉ positionsOf (renumberList (sortByPos [⟨1, 1⟩, ⟨2, 2⟩, ⟨3, 3⟩])) :=
  ⟨⟨3, 500⟩, ⟨true, [⟨1, 1000⟩, ⟨2, 2000⟩, ⟨3, 500⟩]⟩,
    by decide, by decide, by decide, by decide, by decide⟩


/-- Claim C2 (amended): whenever move-item computes a midpoint position
equal to the predecessor's or the successor's position, it renumbers all
items of the wishlist in their current ascending-position order to
consecutive multiples of 1000 starting at 1000, and then recomputes the
moved item's position against the renumbered remaining items with the same
before_position; the moved item's final position is that recomputed value
(in general not a multiple of 1000), not one read back from the renumbered
sequence. -/
theorem C2_conflict_renumbers_then_recomputes
    {w : Wishlist} {pid before : Int} {target : Item}
    (hfind : (sortByPos w.items).find? (fun x => x.product_id == pid) = some target)
    (hlen : (sortByPos w.items).length ≠ 1)
    (hconf : moveConflict ((sortByPos w.items).filter (fun x => x.product_id != pid))
      before = true) :
    ∃ it : Item, ∃ w' : Wishlist,
      move_item w pid before = .ok (it, w') ∧
      it.product_id = target.product_id ∧
      it.position = rawNewPos ((renumberList (sortByPos w.items)).filter
        (fun x => x.product_id != pid)) before ∧
      w'.items = (renumberList (sortByPos w.items)).filter
        (fun x => x.product_id != pid) ++ [it] ∧
      positionsOf (renumberList (sortByPos w.items)) =
        (List.range (sortByPos w.items).length).map
          (fun i : Nat => ((i : Int) + 1) * 1000) := by
  have hmove := @move_item_multi w pid before target hfind hlen
  simp only [hconf, eq_self_iff_true, if_true] at hmove
  refine ⟨_, _, hmove, rfl, rfl, rfl, ?_⟩
  rw [renumberList, renumberFrom_positions]
  refine List.map_congr_left ?_
  intro i _
  push_cast
  ring

/-- Witness for C2's amended theorem: the [1, 2, 3] scenario, where the
recomputed final position is 500. -/
theorem C2_conflict_renumbers_then_recomputes_witness :
    ((sortByPos [(⟨1, 1⟩ : Item), ⟨2, 2⟩, ⟨3, 3⟩]).find? (fun x => x.product_id == 3) =
      some ⟨3, 3⟩) ∧
    (sortByPos [(⟨1, 1⟩ : Item), ⟨2, 2⟩, ⟨3, 3⟩]).length ≠ 1 ∧
    moveConflict ((sortByPos [(⟨1, 1⟩ : Item), ⟨2, 2⟩, ⟨3, 3⟩]).filter
      (fun x => x.product_id != 3)) 1 = true ∧
    (∃ it : Item, ∃ w' : Wishlist,
      move_item ⟨true, [⟨1, 1⟩, ⟨2, 2⟩, ⟨3, 3⟩]⟩ 3 1 = .ok (it, w') ∧
      it.position = rawNewPos ((renumberList (sortByPos
        [(⟨1, 1⟩ : Item), ⟨2, 2⟩, ⟨3, 3⟩])).filter (fun x => x.product_id != 3)) 1) := by
  refine ⟨by decide, by decide, by decide, ?_⟩
  obtain ⟨it, w', h1, h2, h3, h4, h5⟩ :=
    @C2_conflict_renumbers_then_recomputes ⟨true, [⟨1, 1⟩, ⟨2, 2⟩, ⟨3, 3⟩]⟩ 3 1 ⟨3, 3⟩
      (by decide) (by decide) (by decide)
  exact ⟨it, w', h1, h3⟩

/-- Claim C3: when move-item places the target strictly between a
predecessor and a successor (candidates chosen among items other than the
moved one), the moved item's new position is
floor((predecessor.position + successor.position) / 2). -/
theorem C3_midpoint_insertion
    {w : Wishlist} {pid before : Int} {target : Item}
    (hfind : (sortByPos w.items).find? (fun x => x.product_id == pid) = some target)
    (hlen : 2 ≤ w.items.length)
    (hconf : moveConflict ((sortByPos w.items).filter (fun x => x.product_id != pid))
      before = false)
    (hpred : ∃ q ∈ (sortByPos w.items).filter (fun x => x.product_id != pid),
      q.position < before)
    (hsucc : ∃ q ∈ (sortByPos w.items).filter (fun x => x.product_id != pid),
      before ≤ q.position) :
    ∃ p s : Int, ∃ it : Item, ∃ w' : Wishlist,
      (p ∈ positionsOf ((sortByPos w.items).filter (fun x => x.product_id != pid)) ∧
        p < before ∧
        ∀ q ∈ positionsOf ((sortByPos w.items).filter (fun x => x.product_id != pid)),
          q < before → q ≤ p) ∧
      (s ∈ positionsOf ((sortByPos w.items).filter (fun x => x.product_id != pid)) ∧
        before ≤ s ∧
        ∀ q ∈ positionsOf ((sortByPos w.items).filter (fun x => x.product_id != pid)),
          before ≤ q → s ≤ q) ∧
      move_item w pid before = .ok (it, w') ∧
      it.product_id = target.product_id ∧
      it.position = Int.fdiv (p + s) 2 := by
  have hso : List.Sorted posLE ((sortByPos w.items).filter (fun x => x.product_id != pid)) :=
    (sortByPos_sorted w.items).sublist (List.filter_sublist _)
  have hfs : (((sortByPos w.items).filter (fun x => x.product_id != pid)).find?
      (fun it => before ≤ it.position)).isSome := by
    rw [List.find?_isSome]
    obtain ⟨q, hq, hqle⟩ := hsucc
    exact ⟨q, hq, by simpa using hqle⟩
  obtain ⟨s0, hs0⟩ := Option.isSome_iff_exists.mp hfs
  have hsucc0 : succItem? ((sortByPos w.items).filter (fun x => x.product_id != pid))
      before = some s0 := hs0
  have hsmin := sorted_find_min hso hs0
  have hpmem := predPos_mem hpred
  have hlen' : (sortByPos w.items).length ≠ 1 := by
    rw [(sortByPos_perm w.items).length_eq]
    omega
  have hmove := @move_item_multi w pid before target hfind hlen'
  simp only [hconf, Bool.false_eq_true, if_false] at hmove
  refine ⟨predPos ((sortByPos w.items).filter (fun x => x.product_id != pid)) before,
    s0.position, _, _, ⟨hpmem.1, hpmem.2, ?_⟩,
    ⟨List.mem_map_of_mem (·.position) hsmin.1, hsmin.2.1, ?_⟩, hmove, rfl, ?_⟩
  · intro q hq hqlt
    obtain ⟨x, hx, hxq⟩ := List.mem_map.mp hq
    rw [← hxq] at hqlt ⊢
    exact predPos_ub hso x hx hqlt
  · intro q hq hqge
    obtain ⟨x, hx, hxq⟩ := List.mem_map.mp hq
    rw [← hxq] at hqge ⊢
    rcases hsmin.2.2 x hx with hle | hlt
    · exact hle
    · omega
  · show ({ target with position := (rawNewPos
      ((sortByPos w.items).filter (fun x => x.product_id != pid)) before) } : Item).position = _
    rw [rawNewPos_of_succ_some hsucc0]

/-- Witness for C3: items at [1000, 2000, 3000, 4000, 5000], moving the
item at 5000 before position 2000 yields order [1000, 1500, 2000, 3000,
4000] with the moved item at 1500 = floor((1000 + 2000) / 2). -/
theorem C3_midpoint_insertion_witness :
    ((sortByPos [(⟨1, 1000⟩ : Item), ⟨2, 2000⟩, ⟨3, 3000⟩, ⟨4, 4000⟩, ⟨5, 5000⟩]).find?
      (fun x => x.product_id == 5) = some ⟨5, 5000⟩) ∧
    2 ≤ ([(⟨1, 1000⟩ : Item), ⟨2, 2000⟩, ⟨3, 3000⟩, ⟨4, 4000⟩, ⟨5, 5000⟩]).length ∧
    moveConflict ((sortByPos [(⟨1, 1000⟩ : Item), ⟨2, 2000⟩, ⟨3, 3000⟩, ⟨4, 4000⟩,
      ⟨5, 5000⟩]).filter (fun x => x.product_id != 5)) 2000 = false ∧
    (∃ q ∈ (sortByPos [(⟨1, 1000⟩ : Item), ⟨2, 2000⟩, ⟨3, 3000⟩, ⟨4, 4000⟩,
      ⟨5, 5000⟩]).filter (fun x => x.product_id != 5), q.position < 2000) ∧
    (∃ q ∈ (sortByPos [(⟨1, 1000⟩ : Item), ⟨2, 2000⟩, ⟨3, 3000⟩, ⟨4, 4000⟩,
      ⟨5, 5000⟩]).filter (fun x => x.product_id != 5), 2000 ≤ q.position) ∧
    (∃ p s : Int, ∃ it : Item, ∃ w' : Wishlist,
      move_item ⟨true, [⟨1, 1000⟩, ⟨2, 2000⟩, ⟨3, 3000⟩, ⟨4, 4000⟩, ⟨5, 5000⟩]⟩ 5 2000 =
        .ok (it, w') ∧ it.position = Int.fdiv (p + s) 2) ∧
    move_item ⟨true, [⟨1, 1000⟩, ⟨2, 2000⟩, ⟨3, 3000⟩, ⟨4, 4000⟩, ⟨5, 5000⟩]⟩ 5 2000 =
      .ok (⟨5, 1500⟩, ⟨true, [⟨1, 1000⟩, ⟨2, 2000⟩, ⟨3, 3000⟩, ⟨4, 4000⟩, ⟨5, 1500⟩]⟩) ∧
    positionsOf (listItems ⟨true, [⟨1, 1000⟩, ⟨2, 2000⟩, ⟨3, 3000⟩, ⟨4, 4000⟩,
      ⟨5, 1500⟩]⟩) = [1000, 1500, 2000, 3000, 4000] := by
  refine ⟨by decide, by decide, by decide, by decide, by decide, ?_, by decide, by decide⟩
  obtain ⟨p, s, it, w', h1, h2, h3, h4, h5⟩ :=
    @C3_midpoint_insertion ⟨true, [⟨1, 1000⟩, ⟨2, 2000⟩, ⟨3, 3000⟩, ⟨4, 4000⟩, ⟨5, 5000⟩]⟩
      5 2000 ⟨5, 5000⟩ (by decide) (by decide) (by decide) (by decide) (by decide)
  exact ⟨p, s, it, w', h3, h5⟩

/-- Claim C4: renumber fails with NotFound/InvalidState when no wishlist
with that id exists; otherwise it reassigns every item the position
(ordinal_index + 1) * 1000, ordinal_index being the zero-based rank in
ascending-position order, preserving the items' relative order. -/
theorem C4_reposition_spec (w : Wishlist) :
    (w.wexists = false → reposition w = .error .notFound) ∧
    (w.wexists = true → ∃ w' : Wishlist, reposition w = .ok w' ∧
      w'.items.map (·.product_id) = (sortByPos w.items).map (·.product_id) ∧
      positionsOf w'.items =
        (List.range w.items.length).map (fun i : Nat => ((i : Int) + 1) * 1000) ∧
      listItems w' = w'.items) := by
  constructor
  · intro h
    unfold reposition
    rw [h]
    rfl
  · intro h
    refine ⟨{ w with items := renumberList (sortByPos w.items) }, ?_, ?_, ?_, ?_⟩
    · unfold reposition
      rw [h]
      rfl
    · exact renumberFrom_pid 0 _
    · show positionsOf (renumberList (sortByPos w.items)) = _
      rw [renumberList, renumberFrom_positions, (sortByPos_perm w.items).length_eq]
      refine List.map_congr_left ?_
      intro i _
      push_cast
      ring
    · show sortByPos (renumberList (sortByPos w.items)) = _
      exact sortByPos_eq_of_sorted
        ((renumberFrom_strict 0 _).imp (fun hab => le_of_lt hab))

/-- Witness for C4: a missing wishlist fails; renumbering items at
positions [3000, 1000] reassigns [1000, 2000] preserving order. -/
theorem C4_reposition_spec_witness :
    (reposition ⟨false, [⟨1, 500⟩]⟩ = .error .notFound) ∧
    (∃ w' : Wishlist, reposition ⟨true, [⟨1, 3000⟩, ⟨2, 1000⟩]⟩ = .ok w' ∧
      w'.items.map (·.product_id) =
        (sortByPos [(⟨1, 3000⟩ : Item), ⟨2, 1000⟩]).map (·.product_id) ∧
      positionsOf w'.items =
        (List.range ([(⟨1, 3000⟩ : Item), ⟨2, 1000⟩]).length).map
          (fun i : Nat => ((i : Int) + 1) * 1000) ∧
      listItems w' = w'.items) :=
  ⟨(C4_reposition_spec ⟨false, [⟨1, 500⟩]⟩).1 rfl,
    (C4_reposition_spec ⟨true, [⟨1, 3000⟩, ⟨2, 1000⟩]⟩).2 rfl⟩

/-- Claim C5: append-position returns max + 1000 where max is the greatest
existing position among the wishlist's items, taking max = 0 for an empty
wishlist, so appending to an empty wishlist yields position 1000. -/
theorem C5_append_position_spec (w : Wishlist) :
    (w.items = [] → appendPosition w = 1000) ∧
    (w.items ≠ [] →
      find_last_position w.items ∈ positionsOf w.items ∧
      (∀ q ∈ w.items, q.position ≤ find_last_position w.items) ∧
      appendPosition w = find_last_position w.items + 1000) := by
  constructor
  · intro h
    unfold appendPosition find_last_position
    rw [h]
    rfl
  · intro h
    exact ⟨find_last_position_mem h, find_last_position_max w.items, rfl⟩

/-- Witness for C5: the empty wishlist yields 1000; with positions
[500, 2500] the maximum 2500 is found and 3500 allocated. -/
theorem C5_append_position_spec_witness :
    appendPosition ⟨true, []⟩ = 1000 ∧
    (find_last_position [(⟨1, 500⟩ : Item), ⟨2, 2500⟩] ∈
      positionsOf [(⟨1, 500⟩ : Item), ⟨2, 2500⟩] ∧
    (∀ q ∈ [(⟨1, 500⟩ : Item), ⟨2, 2500⟩],
      q.position ≤ find_last_position [(⟨1, 500⟩ : Item), ⟨2, 2500⟩]) ∧
    appendPosition ⟨true, [⟨1, 500⟩, ⟨2, 2500⟩]⟩ =
      find_last_position [(⟨1, 500⟩ : Item), ⟨2, 2500⟩] + 1000) :=
  ⟨(C5_append_position_spec ⟨true, []⟩).1 rfl,
    (C5_append_position_spec ⟨true, [⟨1, 500⟩, ⟨2, 2500⟩]⟩).2 (by decide)⟩

/-- Claim C6: if the commit step of move-item or renumber fails with a
storage error, the exception is propagated unchanged to the caller and the
stored positions are exactly as they were before the call. -/
theorem C6_commit_failure_atomic (w : Wishlist) (pid before : Int) (msg : String) :
    (∀ r : Item × Wishlist, move_item w pid before = .ok r →
      move_item_tx (some msg) w pid before = (.error (.storage msg), w)) ∧
    (∀ w2 : Wishlist, reposition w = .ok w2 →
      reposition_tx (some msg) w = (.error (.storage msg), w)) := by
  constructor
  · intro r h
    cases r with
    | mk it w' =>
      unfold move_item_tx
      rw [h]
  · intro w2 h
    unfold reposition_tx
    rw [h]

/-- Witness for C6: a two-item move and a renumber whose commits fail leave
the stored rows untouched and surface the storage error. -/
theorem C6_commit_failure_atomic_witness :
    move_item ⟨true, [⟨1, 1000⟩, ⟨2, 2000⟩]⟩ 2 500 =
      .ok (⟨2, 500⟩, ⟨true, [⟨1, 1000⟩, ⟨2, 500⟩]⟩) ∧
    move_item_tx (some "DB Error") ⟨true, [⟨1, 1000⟩, ⟨2, 2000⟩]⟩ 2 500 =
      (.error (.storage "DB Error"), ⟨true, [⟨1, 1000⟩, ⟨2, 2000⟩]⟩) ∧
    reposition_tx (some "DB Error") ⟨true, [⟨1, 1000⟩, ⟨2, 2000⟩]⟩ =
      (.error (.storage "DB Error"), ⟨true, [⟨1, 1000⟩, ⟨2, 2000⟩]⟩) := by
  refine ⟨by decide, ?_, ?_⟩
  · exact (C6_commit_failure_atomic ⟨true, [⟨1, 1000⟩, ⟨2, 2000⟩]⟩ 2 500 "DB Error").1
      (⟨2, 500⟩, ⟨true, [⟨1, 1000⟩, ⟨2, 500⟩]⟩) (by decide)
  · exact (C6_commit_failure_atomic ⟨true, [⟨1, 1000⟩, ⟨2, 2000⟩]⟩ 2 500 "DB Error").2
      ⟨true, [⟨1, 1000⟩, ⟨2, 2000⟩]⟩ (by decide)

/-- Claim C7: move-item fails with NotFound/InvalidState when the wishlist
has zero items (including when the wishlist does not exist), and with
NotFound when no item with the given product id exists; in both cases the
failure is raised before any mutation, so stored positions are unchanged. -/
theorem C7_move_item_failures (w : Wishlist) (pid before : Int) (cr : Option String) :
    (w.items = [] →
      move_item_tx cr w pid before = (.error (.validation .invalidState), w)) ∧
    (w.items ≠ [] → (∀ it ∈ w.items, it.product_id ≠ pid) →
      move_item_tx cr w pid before = (.error (.validation .notFound), w)) := by
  constructor
  · intro h
    have hmv : move_item w pid before = .error .invalidState := by
      unfold move_item
      rw [h]
      rfl
    unfold move_item_tx
    rw [hmv]
  · intro h hall
    have hfind : (sortByPos w.items).find? (fun x => x.product_id == pid) = none := by
      rw [List.find?_eq_none]
      intro x hx
      have := hall x ((sortByPos_perm w.items).mem_iff.mp hx)
      simpa using this
    have hemp : (sortByPos w.items).isEmpty = false := by
      have hlen := (sortByPos_perm w.items).length_eq
      cases hs : sortByPos w.items with
      | nil =>
        rw [hs] at hlen
        exact absurd (List.length_eq_zero.mp hlen.symm) h
      | cons a t => rfl
    have hmv : move_item w pid before = .error .notFound := by
      simp only [move_item, hemp, Bool.false_eq_true, if_false, hfind]
    unfold move_item_tx
    rw [hmv]

/-- Witness for C7: an empty wishlist and a missing product id both fail
without touching the stored rows. -/
theorem C7_move_item_failures_witness :
    move_item_tx none ⟨true, []⟩ 1 1000 =
      (.error (.validation .invalidState), ⟨true, []⟩) ∧
    move_item_tx none ⟨true, [⟨1, 1000⟩, ⟨2, 2000⟩]⟩ 9999 500 =
      (.error (.validation .notFound), ⟨true, [⟨1, 1000⟩, ⟨2, 2000⟩]⟩) :=
  ⟨(C7_move_item_failures ⟨true, []⟩ 1 1000 none).1 rfl,
    (C7_move_item_failures ⟨true, [⟨1, 1000⟩, ⟨2, 2000⟩]⟩ 9999 500 none).2
      (by decide) (by decide)⟩

/-- Claim C8: for a wishlist containing exactly one item, move-item returns
that item with its position unchanged for every before_position, and no
stored state changes. -/
theorem C8_single_item_noop (w : Wishlist) (it0 : Item) (before : Int)
    (h : w.items = [it0]) :
    move_item w it0.product_id before = .ok (it0, w) := by
  have hfind : (sortByPos w.items).find? (fun x => x.product_id == it0.product_id) =
      some it0 := by
    rw [h]
    exact List.find?_cons_of_pos _ (by simp)
  have hlen : (sortByPos w.items).length = 1 := by
    rw [h]
    rfl
  exact move_item_single hfind hlen before

/-- Witness for C8: moving the only item of a wishlist with an arbitrary
before_position returns it unchanged. -/
theorem C8_single_item_noop_witness :
    move_item ⟨true, [⟨7, 1000⟩]⟩ 7 500 = .ok (⟨7, 1000⟩, ⟨true, [⟨7, 1000⟩]⟩) :=
  C8_single_item_noop ⟨true, [⟨7, 1000⟩]⟩ ⟨7, 1000⟩ 500 rfl

/-- Claim C9: after every completed operation of the subsystem (append,
move-item, renumber) on a well-formed wishlist, all item positions are
pairwise distinct and listing the wishlist's items yields them in strictly
ascending position order. -/
theorem C9_distinct_and_ascending (w : Wishlist)
    (hpos : (positionsOf w.items).Nodup)
    (hnn : ∀ q ∈ w.items, 0 ≤ q.position)
    (hpid : (w.items.map (·.product_id)).Nodup) :
    (∀ pid : Int, StrictlyListed (create_item w pid)) ∧
    (∀ pid before : Int, ∀ it : Item, ∀ w' : Wishlist,
      move_item w pid before = .ok (it, w') → StrictlyListed w') ∧
    (∀ w' : Wishlist, reposition w = .ok w' → StrictlyListed w') := by
  refine ⟨?_, ?_, ?_⟩
  · intro pid
    have hnd : (positionsOf (create_item w pid).items).Nodup := by
      show (positionsOf (w.items ++ [⟨pid, find_last_position w.items + 1000⟩])).Nodup
      unfold positionsOf
      rw [List.map_append]
      refine List.Nodup.append hpos (List.nodup_singleton _) ?_
      intro x hx hx2
      simp only [List.map_cons, List.map_nil, List.mem_singleton] at hx2
      obtain ⟨q, hq, hqx⟩ := List.mem_map.mp hx
      have := find_last_position_max w.items q hq
      rw [hx2] at hqx
      omega
    exact ⟨hnd, listItems_strict hnd⟩
  · intro pid before it w' h
    exact move_item_ok_strict hpos hnn hpid h
  · intro w' h
    unfold reposition at h
    by_cases he : w.wexists
    · rw [if_pos he] at h
      injection h with h
      subst h
      have hnd : (positionsOf (renumberList (sortByPos w.items))).Nodup :=
        nodup_positions_of_strict (renumberFrom_strict 0 (sortByPos w.items))
      exact ⟨hnd, listItems_strict hnd⟩
    · rw [if_neg he] at h
      exact Except.noConfusion h

/-- Witness for C9: a two-item wishlist stays distinct and strictly listed
after an append. -/
theorem C9_distinct_and_ascending_witness :
    (positionsOf [(⟨1, 1000⟩ : Item), ⟨2, 2000⟩]).Nodup ∧
    (∀ q ∈ [(⟨1, 1000⟩ : Item), ⟨2, 2000⟩], 0 ≤ q.position) ∧
    ([(⟨1, 1000⟩ : Item), ⟨2, 2000⟩].map (·.product_id)).Nodup ∧
    StrictlyListed (create_item ⟨true, [⟨1, 1000⟩, ⟨2, 2000⟩]⟩ 9) :=
  ⟨by decide, by decide, by decide,
    (C9_distinct_and_ascending ⟨true, [⟨1, 1000⟩, ⟨2, 2000⟩]⟩
      (by decide) (by decide) (by decide)).1 9⟩

/-- Claim C10: a client-supplied position is never honored at the service
interface — POST assigns last_position + 1000 regardless of any position
field in the body, PUT leaves the stored position unchanged (the route pops
position and deserialize never overwrites a non-None position), and
deserialize only defaults position to 0 when it was unset. -/
theorem C10_client_position_ignored :
    (∀ (w : Wishlist) (data : Payload) (p' : Option Int),
      post_route w { data with position := p' } = post_route w data) ∧
    (∀ (w : Wishlist) (data : Payload) (it : Item) (w' : Wishlist),
      post_route w data = .ok (it, w') →
      it.position = find_last_position w.items + 1000 ∧
      w' = create_item w it.product_id) ∧
    (∀ (stored : ItemRecord) (wid pid : Int) (data : Payload) (p : Int),
      stored.position = some p →
      ∀ r : ItemRecord, put_route_update stored wid pid data = .ok r →
        r.position = some p) ∧
    (∀ (self : ItemRecord) (data : Payload) (p : Int), self.position = some p →
      ∀ r : ItemRecord, deserialize self data = .ok r → r.position = some p) ∧
    (∀ (self : ItemRecord) (data : Payload), self.position = none →
      ∀ r : ItemRecord, deserialize self data = .ok r →
        r.position = some (data.position.getD 0)) := by
  refine ⟨?_, ?_, ?_, ?_, ?_⟩
  · intro w data p'
    obtain ⟨dw, dp, dd, dpos⟩ := data
    unfold post_route deserialize
    cases dp <;> rfl
  · intro w data it w' h
    obtain ⟨dw, dp, dd, dpos⟩ := data
    unfold post_route deserialize at h
    by_cases hw : w.wexists
    · rw [if_pos hw] at h
      cases dp with
      | none => exact Except.noConfusion h
      | some pid =>
        simp only [] at h
        by_cases hdup : w.items.any (fun x => x.product_id == pid)
        · rw [if_pos hdup] at h
          exact Except.noConfusion h
        · rw [if_neg hdup] at h
          injection h with h
          injection h with h1 h2
          subst h1 h2
          exact ⟨rfl, rfl⟩
    · rw [if_neg hw] at h
      exact Except.noConfusion h
  · intro stored wid pid data p hp r h
    obtain ⟨sw, sp, sd, spos⟩ := stored
    obtain ⟨dw, dp, dd, dpos⟩ := data
    unfold put_route_update deserialize at h
    cases dp with
    | none => exact Except.noConfusion h
    | some pid2 =>
      simp only [] at h
      injection h with h
      subst h
      simp only [] at hp ⊢
      rw [hp]
  · intro self data p hp r h
    obtain ⟨sw, sp, sd, spos⟩ := self
    obtain ⟨dw, dp, dd, dpos⟩ := data
    unfold deserialize at h
    cases dp with
    | none => exact Except.noConfusion h
    | some pid2 =>
      injection h with h
      subst h
      simp only [] at hp ⊢
      rw [hp]
  · intro self data hp r h
    obtain ⟨sw, sp, sd, spos⟩ := self
    obtain ⟨dw, dp, dd, dpos⟩ := data
    unfold deserialize at h
    cases dp with
    | none => exact Except.noConfusion h
    | some pid2 =>
      injection h with h
      subst h
      simp only [] at hp
      subst hp
      rfl

/-- Witness for C10: a POST body carrying position 77 creates the item at
2000 = 1000 + 1000 anyway; a PUT over a stored position 1000 keeps it;
deserialize keeps a set position and defaults an unset one to 0. -/
theorem C10_client_position_ignored_witness :
    (post_route ⟨true, [⟨1, 1000⟩]⟩ ⟨none, some 2, none, some 77⟩ =
      post_route ⟨true, [⟨1, 1000⟩]⟩ ⟨none, some 2, none, none⟩) ∧
    (post_route ⟨true, [⟨1, 1000⟩]⟩ ⟨none, some 2, none, some 77⟩ =
      .ok (⟨2, 2000⟩, ⟨true, [⟨1, 1000⟩, ⟨2, 2000⟩]⟩)) ∧
    ((⟨2, 2000⟩ : Item).position =
      find_last_position [(⟨1, 1000⟩ : Item)] + 1000 ∧
      (⟨true, [⟨1, 1000⟩, ⟨2, 2000⟩]⟩ : Wishlist) =
        create_item ⟨true, [⟨1, 1000⟩]⟩ (Item.product_id ⟨2, 2000⟩)) ∧
    (∀ r : ItemRecord,
      put_route_update ⟨some 1, some 2, none, some 1000⟩ 1 2 ⟨none, some 2, none, some 999⟩ =
        .ok r → r.position = some 1000) ∧
    (∀ r : ItemRecord,
      deserialize ⟨none, none, none, none⟩ ⟨none, some 2, none, some 42⟩ = .ok r →
        r.position = some ((some (42 : Int)).getD 0)) := by
  refine ⟨(C10_client_position_ignored).1 ⟨true, [⟨1, 1000⟩]⟩ ⟨none, some 2, none, none⟩
      (some 77), by decide, ?_, ?_, ?_⟩
  · exact (C10_client_position_ignored).2.1 ⟨true, [⟨1, 1000⟩]⟩ ⟨none, some 2, none, some 77⟩
      ⟨2, 2000⟩ ⟨true, [⟨1, 1000⟩, ⟨2, 2000⟩]⟩ (by decide)
  · intro r h
    exact (C10_client_position_ignored).2.2.1 ⟨some 1, some 2, none, some 1000⟩ 1 2
      ⟨none, some 2, none, some 999⟩ 1000 rfl r h
  · intro r h
    exact (C10_client_position_ignored).2.2.2.2 ⟨none, none, none, none⟩
      ⟨none, some 2, none, some 42⟩ rfl r h
